import Mathlib

/-!
Verification of the BookStore backend's rating, history, pagination, genre,
collection and book-management logic, shallowly embedded from the JavaScript
source (controllers/publicBookController.js, controllers/historyController.js,
controllers/favoriteController.js, controllers/personalBookController.js,
models/Book schema, and the BookService revisions).

Document ids and user ids are modelled as naturals, client IPs as strings,
rating values as rationals, and the document store as a partial map from ids
to documents.  Mongo/Mongoose primitives used by the code (find, findOne,
distinct, aggregate stages, skip/limit) are embedded as the corresponding
list operations over the stored documents.
-/

namespace BookStore

/-- An identity for rating deduplication: an authenticated user id, or,
absent one, the client IP (spec glossary "Identity"). -/
abbrev Ident := Nat ⊕ String

/-- One embedded rating entry of the Book schema: optional `user` reference,
optional `ratedByIp` string, and the numeric `rating` value. -/
structure RatingEntry where
  user : Option Nat
  ratedByIp : Option String
  rating : ℚ
deriving DecidableEq

/-- One rating submission reaching the `rateBook` controller: the optional
authenticated user (`req.user`), the client IP (`req.ip`), and the rating
value from the request body. -/
structure Submission where
  user? : Option Nat
  ip : String
  rating : ℚ
deriving DecidableEq

/-- The identity a submission rates under: the user id when authenticated,
otherwise the client IP. -/
def identOfSub (s : Submission) : Ident :=
  match s.user? with
  | some u => Sum.inl u
  | none => Sum.inr s.ip

/-- The controller's duplicate-rating test (publicBookController.js rateBook):
for a logged-in user, `r.user && r.user.toString() === user._id.toString()`;
for a guest, `r.ratedByIp === ip`. -/
def matchPred (i : Ident) (e : RatingEntry) : Bool :=
  match i with
  | Sum.inl u => e.user == some u
  | Sum.inr ip => e.ratedByIp == some ip

/-- Apply `f` to the first element satisfying `p`, leaving the rest unchanged.
This models the in-place mutation of the entry found by `Array.find` /
`findIndex` in the JavaScript code. -/
def updateFirst (p : α → Bool) (f : α → α) : List α → List α
  | [] => []
  | a :: as => if p a then f a :: as else a :: updateFirst p f as

/-- The fresh rating entry pushed when no prior entry matches: tagged with the
user id when authenticated, otherwise with the client IP. -/
def newEntryOf (s : Submission) : RatingEntry :=
  match s.user? with
  | some u => ⟨some u, none, s.rating⟩
  | none => ⟨none, some s.ip, s.rating⟩

/-- Update of the ratings array performed by the controller's `rateBook`
(publicBookController.js lines 123-144): overwrite the matching entry's
rating in place if one exists, otherwise push a new entry. -/
def applyRatings (rs : List RatingEntry) (s : Submission) : List RatingEntry :=
  if rs.any (matchPred (identOfSub s)) then
    updateFirst (matchPred (identOfSub s)) (fun e => { e with rating := s.rating }) rs
  else rs ++ [newEntryOf s]

/-- The identity recorded by a rating entry as seen by the controller's
`uniqueRaters` loop: `if (r.user) add(r.user) else if (r.ratedByIp) add(r.ratedByIp)`. -/
def entryId (e : RatingEntry) : Option Ident :=
  match e.user with
  | some u => some (Sum.inl u)
  | none =>
    match e.ratedByIp with
    | some ip => some (Sum.inr ip)
    | none => none

/-- Size of the `uniqueRaters` set built by the controller: the number of
distinct identities among the entries. -/
def distinctRaters (rs : List RatingEntry) : Nat :=
  (rs.filterMap entryId).dedup.length

/-- The Book document (models/Book schema): metadata, owner, visibility,
aggregate rating fields and the embedded ratings array.  Schema defaults are
0 for `averageRating`, `numberOfRatings` and `uniqueReadersCount`. -/
structure Book where
  title : String
  author : String
  genre : List String
  summary : String
  owner : Nat
  isPublic : Bool
  coverImageURL : String
  filePath : String
  averageRating : ℚ
  numberOfRatings : Nat
  uniqueReadersCount : Nat
  ratings : List RatingEntry
deriving DecidableEq

/-- The document store, holding at most one Book per id. -/
abbrev Store := Nat → Option Book

/-- Aggregation step of the controller's `rateBook` (lines 146-156): update
the ratings array, recompute `numberOfRatings` as the number of distinct
identities, and `averageRating` as the sum of all rating values divided by
the entry count. -/
def rateBookUpdate (b : Book) (s : Submission) : Book :=
  let rs := applyRatings b.ratings s
  { b with
    ratings := rs
    numberOfRatings := distinctRaters rs
    averageRating := (rs.map RatingEntry.rating).sum / (rs.length : ℚ) }

/-- The `rateBook` controller (publicBookController.js lines 106-168):
reject ratings outside [1,5] with 400 before any lookup, answer 404 when the
book id is unknown, and otherwise apply the rating update and save. -/
def rateBook (store : Store) (bookId : Nat) (s : Submission) : Nat × Store :=
  if s.rating < 1 ∨ s.rating > 5 then (400, store)
  else
    match store bookId with
    | none => (404, store)
    | some b => (200, fun i => if i = bookId then some (rateBookUpdate b s) else store i)

/-- Sequentially process a list of rating submissions against one book id
through the `rateBook` controller, threading the store. -/
def processRatings (store : Store) (bookId : Nat) (subs : List Submission) : Store :=
  subs.foldl (fun st s => (rateBook st bookId s).2) store

/-- Duplicate-rating test of the later BookService revision (part_001 lines
317-325): the guest branch additionally requires `!r.user`. -/
def matchPredS (i : Ident) (e : RatingEntry) : Bool :=
  match i with
  | Sum.inl u => e.user == some u
  | Sum.inr ip => e.user == none && e.ratedByIp == some ip

/-- Overwrite step of the later BookService revision (part_001 lines
327-331): set the new rating, and for a guest also refresh the stored IP. -/
def serviceOverwrite (s : Submission) (e : RatingEntry) : RatingEntry :=
  match s.user? with
  | some _ => { e with rating := s.rating }
  | none => { e with rating := s.rating, ratedByIp := some s.ip }

/-- Ratings-array update of the later BookService revision (part_001 lines
327-341): overwrite in place, refreshing the stored IP for a guest slot. -/
def applyRatingsS (rs : List RatingEntry) (s : Submission) : List RatingEntry :=
  if rs.any (matchPredS (identOfSub s)) then
    updateFirst (matchPredS (identOfSub s)) (serviceOverwrite s) rs
  else rs ++ [newEntryOf s]

/-- Aggregation step of the later BookService revision (part_001 lines
343-346): `numberOfRatings` is simply the entry collection's size. -/
def rateBookUpdateS (b : Book) (s : Submission) : Book :=
  let rs := applyRatingsS b.ratings s
  { b with
    ratings := rs
    numberOfRatings := rs.length
    averageRating := (rs.map RatingEntry.rating).sum / (rs.length : ℚ) }

/-- Ratings arrays reachable from the empty array by repeated applications of
the rating operation, in either revision. -/
inductive ReachableRatings : List RatingEntry → Prop
  | nil : ReachableRatings []
  | stepController {rs : List RatingEntry} (h : ReachableRatings rs) (s : Submission) :
      ReachableRatings (applyRatings rs s)
  | stepService {rs : List RatingEntry} (h : ReachableRatings rs) (s : Submission) :
      ReachableRatings (applyRatingsS rs s)

/-- A reading-history row (History schema): user reference, book reference,
and the last-read timestamp. -/
structure HistoryRow where
  user : Nat
  book : Nat
  lastReadAt : Nat
deriving DecidableEq

/-- The `History.findOne({ user, book })` match criterion. -/
def histMatch (u b : Nat) (r : HistoryRow) : Bool :=
  r.user == u && r.book == b

/-- History mutation of `addToHistory` (historyController.js lines 49-60):
refresh the timestamp of the existing (user, book) row if one exists,
otherwise insert a new row stamped now. -/
def addToHistoryRows (rows : List HistoryRow) (u b now : Nat) : List HistoryRow :=
  if rows.any (histMatch u b) then
    updateFirst (histMatch u b) (fun r => { r with lastReadAt := now }) rows
  else rows ++ [⟨u, b, now⟩]

/-- The `History.distinct('user', { book })` count: number of distinct user
ids across the history rows referencing the book. -/
def distinctReaders (rows : List HistoryRow) (b : Nat) : Nat :=
  ((rows.filter (fun r => r.book == b)).map HistoryRow.user).dedup.length

/-- The `addToHistory` controller (historyController.js lines 39-79): 404 for
an unknown book, otherwise find-or-create the (user, book) row, recompute the
book's `uniqueReadersCount` from the full history collection, and save. -/
def addToHistory (rows : List HistoryRow) (store : Store) (u bookId now : Nat) :
    Nat × List HistoryRow × Store :=
  match store bookId with
  | none => (404, rows, store)
  | some book =>
    let rows2 := addToHistoryRows rows u bookId now
    let book2 := { book with uniqueReadersCount := distinctReaders rows2 bookId }
    (200, rows2, fun i => if i = bookId then some book2 else store i)

/-- Response payload of the public-book listing. -/
structure PageResult (α : Type) where
  books : List α
  page : Nat
  pages : Nat
  totalBooks : Nat
deriving DecidableEq

/-- Pagination of `getPublicBooks` (publicBookController.js lines 18-30),
applied to the sorted list of public books: `skip = (page-1)*limit`, a slice
of at most `limit` items, `totalPages = Math.ceil(total/limit)` (for naturals
with `limit ≥ 1`, the ceiling is `(total + limit - 1) / limit`). -/
def getPublicBooks (sorted : List α) (page limit : Nat) : PageResult α :=
  { books := (sorted.drop ((page - 1) * limit)).take limit
    page := page
    pages := (sorted.length + limit - 1) / limit
    totalBooks := sorted.length }

/-- A Collection document (models/Collection.js): name, owner, book refs. -/
structure Collection where
  name : String
  owner : Nat
  books : List Nat
deriving DecidableEq

/-- The `addBookToCollection` controller (favoriteController.js lines
143-169): 404 when the collection or book is missing or not owned by the
requester, 400 when the book is already in the collection, otherwise push. -/
def addBookToCollection (coll? : Option Collection) (book? : Option Book)
    (uid bookId : Nat) : Nat × Option Collection :=
  match coll? with
  | none => (404, none)
  | some coll =>
    if coll.owner ≠ uid then (404, some coll)
    else
      match book? with
      | none => (404, some coll)
      | some book =>
        if book.owner ≠ uid then (404, some coll)
        else if bookId ∈ coll.books then (400, some coll)
        else (200, some { coll with books := coll.books ++ [bookId] })

/-- The `deletePersonalBook` controller (personalBookController.js lines
106-119): delete only when the book exists and is owned by the requester,
otherwise answer 404 leaving the store untouched. -/
def deletePersonalBook (store : Store) (bookId uid : Nat) : Nat × Store :=
  match store bookId with
  | some book =>
    if book.owner = uid then (200, fun i => if i = bookId then none else store i)
    else (404, store)
  | none => (404, store)

/-- The new document built by `addBookFromPublic` (favoriteController.js lines
204-216): copy title, author, genre, summary, cover, file, rating aggregates
and the ratings array; set the requester as owner and `isPublic` to false;
`uniqueReadersCount` is not passed, so it takes the schema default 0. -/
def copyPublicBook (pb : Book) (uid : Nat) : Book :=
  { title := pb.title
    author := pb.author
    genre := pb.genre
    summary := pb.summary
    owner := uid
    isPublic := false
    coverImageURL := pb.coverImageURL
    filePath := pb.filePath
    averageRating := pb.averageRating
    numberOfRatings := pb.numberOfRatings
    uniqueReadersCount := 0
    ratings := pb.ratings }

/-- The `addBookFromPublic` controller (favoriteController.js lines 194-224):
404 when the target is missing or not public, otherwise save a personal copy
under a fresh id. -/
def addBookFromPublic (store : Store) (freshId bookId uid : Nat) : Nat × Store :=
  match store bookId with
  | none => (404, store)
  | some pb =>
    if pb.isPublic then
      (201, fun i => if i = freshId then some (copyPublicBook pb uid) else store i)
    else (404, store)

/-- A raw string as stored in the document database, modelled as its list of
characters so that the splitting, trimming and comparison steps of the genre
aggregation stay fully computable. -/
abbrev Str := List Char

/-- The raw `genre` field of a stored book document: legacy documents hold a
single comma-delimited string, newer ones a list of strings. -/
inductive GenreField where
  | str : Str → GenreField
  | arr : List Str → GenreField
deriving DecidableEq

/-- The projection of a stored book document seen by the genre aggregation:
its visibility flag and its raw `genre` field (absent when the document has
no genre). -/
structure GenreDoc where
  isPublic : Bool
  genre : Option GenreField
deriving DecidableEq

/-- Mongo `$split` on the separator "," : splits the string at every comma,
keeping empty fragments. -/
def splitOnComma : Str → List Str
  | [] => [[]]
  | c :: cs =>
    match splitOnComma cs with
    | [] => [[]]
    | t :: ts => if c = ',' then [] :: t :: ts else (c :: t) :: ts

/-- Mongo `$trim` with default character set: strip whitespace from both ends. -/
def trimChars (s : Str) : Str :=
  ((s.dropWhile Char.isWhitespace).reverse.dropWhile Char.isWhitespace).reverse

/-- The `$addFields`/`$cond` normalization of `getUniqueGenres`: a string
genre is split on commas, an array genre is used as is. -/
def genreTokens : GenreField → List Str
  | .str s => splitOnComma s
  | .arr l => l

/-- Stages `$match`-`$unwind`-`$project`-`$match` of the `getUniqueGenres`
aggregation (publicBookController.js lines 206-219): from the public books
that carry a genre field, all genre tokens trimmed, empty strings removed. -/
def rawGenres (docs : List GenreDoc) : List Str :=
  (docs.filter (fun d => d.isPublic)).flatMap fun d =>
    match d.genre with
    | none => []
    | some g => ((genreTokens g).map trimChars).filter (fun t => !t.isEmpty)

/-- Lexicographic comparison of character lists by code point, the order in
which Mongo `$sort: { _id: 1 }` returns the grouped genre strings. -/
def lexLt : Str → Str → Bool
  | [], [] => false
  | [], _ :: _ => true
  | _ :: _, [] => false
  | a :: as, b :: bs => if a < b then true else if b < a then false else lexLt as bs

/-- Insert a string into a sorted duplicate-free list, keeping it sorted and
duplicate-free. -/
def insertGenre (s : Str) : List Str → List Str
  | [] => [s]
  | t :: ts =>
    if s = t then t :: ts
    else if lexLt s t then s :: t :: ts
    else t :: insertGenre s ts

/-- The `$group`-by-value plus ascending `$sort` tail of the aggregation:
the distinct values in ascending order. -/
def sortDedupGenres (l : List Str) : List Str :=
  l.foldr insertGenre []

/-- The full `getUniqueGenres` aggregation (publicBookController.js lines
204-228). -/
def getUniqueGenres (docs : List GenreDoc) : List Str :=
  sortDedupGenres (rawGenres docs)

/-- Updating the first match leaves the length unchanged. -/
lemma length_updateFirst (p : α → Bool) (f : α → α) (l : List α) :
    (updateFirst p f l).length = l.length := by
  induction l with
  | nil => rfl
  | cons a as ih =>
    simp only [updateFirst]
    by_cases h : p a
    · simp [h]
    · simp [h, ih]

/-- Updating the first match preserves any projection that `f` preserves on
matching elements. -/
lemma map_updateFirst (p : α → Bool) (f : α → α) (g : α → β)
    (hg : ∀ a, p a = true → g (f a) = g a) (l : List α) :
    (updateFirst p f l).map g = l.map g := by
  induction l with
  | nil => rfl
  | cons a as ih =>
    simp only [updateFirst]
    by_cases h : p a
    · simp [h, hg a h]
    · simp [h, ih]

/-- When some element matches, the first match of the updated list is the
image under `f` of the original first match, provided `f` preserves `p`. -/
lemma find?_updateFirst (p : α → Bool) (f : α → α)
    (hf : ∀ a, p a = true → p (f a) = true) (l : List α) (hl : l.any p = true) :
    ∃ a, l.find? p = some a ∧ (updateFirst p f l).find? p = some (f a) := by
  induction l with
  | nil => simp at hl
  | cons a as ih =>
    by_cases h : p a
    · refine ⟨a, List.find?_cons_of_pos _ h, ?_⟩
      simp only [updateFirst, if_pos h]
      exact List.find?_cons_of_pos _ (hf a h)
    · have hl2 : as.any p = true := by simpa [List.any_cons, h] using hl
      obtain ⟨c, hc1, hc2⟩ := ih hl2
      refine ⟨c, ?_, ?_⟩
      · rw [List.find?_cons_of_neg _ h]
        exact hc1
      · simp only [updateFirst, if_neg h]
        rw [List.find?_cons_of_neg _ h]
        exact hc2

/-- A fresh entry matches exactly the identity of the submission it records. -/
lemma matchPred_newEntryOf (i : Ident) (s : Submission) :
    matchPred i (newEntryOf s) = true ↔ i = identOfSub s := by
  cases i with
  | inl u =>
    cases h : s.user? with
    | some v =>
      simp only [matchPred, newEntryOf, h, identOfSub, beq_iff_eq, Option.some.injEq,
        Sum.inl.injEq]
      exact eq_comm
    | none => simp [matchPred, newEntryOf, identOfSub, h]
  | inr ip =>
    cases h : s.user? with
    | some v => simp [matchPred, newEntryOf, identOfSub, h]
    | none =>
      simp only [matchPred, newEntryOf, h, identOfSub, beq_iff_eq, Option.some.injEq,
        Sum.inr.injEq]
      exact eq_comm

/-- A fresh entry records the identity of its submission. -/
lemma entryId_newEntryOf (s : Submission) :
    entryId (newEntryOf s) = some (identOfSub s) := by
  cases h : s.user? <;> simp [entryId, newEntryOf, identOfSub, h]

/-- A fresh entry records the rating value of its submission. -/
lemma rating_newEntryOf (s : Submission) : (newEntryOf s).rating = s.rating := by
  cases h : s.user? <;> simp [newEntryOf, h]

/-- The duplicate test only inspects the identity fields, never the value. -/
lemma matchPred_set_rating (i : Ident) (e : RatingEntry) (r : ℚ) :
    matchPred i { e with rating := r } = matchPred i e := by
  cases i <;> rfl

/-- Overwriting the rating value does not change the recorded identity. -/
lemma entryId_set_rating (e : RatingEntry) (r : ℚ) :
    entryId { e with rating := r } = entryId e := rfl

/-- An entry matches the identity it records. -/
lemma matchPred_of_entryId (e : RatingEntry) (i : Ident) (h : entryId e = some i) :
    matchPred i e = true := by
  cases hu : e.user with
  | some u =>
    simp only [entryId, hu] at h
    injection h with h
    simp [matchPred, ← h, hu]
  | none =>
    cases hip : e.ratedByIp with
    | some ip =>
      simp only [entryId, hu, hip] at h
      injection h with h
      simp [matchPred, ← h, hip]
    | none => simp [entryId, hu, hip] at h

/-- Lists with the same image under `g` have the same `filterMap g`. -/
lemma filterMap_congr_of_map_eq (g : α → Option γ) :
    ∀ l1 l2 : List α, l1.map g = l2.map g → l1.filterMap g = l2.filterMap g := by
  intro l1
  induction l1 with
  | nil =>
    intro l2 h
    cases l2 with
    | nil => rfl
    | cons b bs => simp at h
  | cons a as ih =>
    intro l2 h
    cases l2 with
    | nil => simp at h
    | cons b bs =>
      simp only [List.map_cons, List.cons.injEq] at h
      obtain ⟨h1, h2⟩ := h
      have hrec := ih bs h2
      cases hgb : g b <;> simp [List.filterMap_cons, h1, hgb, hrec]

/-- The distinct-identity count only depends on the recorded identities. -/
lemma distinctRaters_congr {rs1 rs2 : List RatingEntry}
    (h : rs1.map entryId = rs2.map entryId) : distinctRaters rs1 = distinctRaters rs2 := by
  unfold distinctRaters
  rw [filterMap_congr_of_map_eq entryId rs1 rs2 h]

/-- C2: a second rating from an identity that already has an entry overwrites
that entry's value in place: the ratings collection keeps its length, the
recorded identities are unchanged slot for slot, `numberOfRatings` stays what
it was, and the entry found for that identity now carries the new value. -/
theorem rateBook_second_rating_in_place (b : Book) (s : Submission)
    (hmatch : b.ratings.any (matchPred (identOfSub s)) = true)
    (hcons : b.numberOfRatings = distinctRaters b.ratings) :
    (rateBookUpdate b s).ratings.length = b.ratings.length ∧
    (rateBookUpdate b s).numberOfRatings = b.numberOfRatings ∧
    (rateBookUpdate b s).ratings.map entryId = b.ratings.map entryId ∧
    ∃ e, b.ratings.find? (matchPred (identOfSub s)) = some e ∧
      (rateBookUpdate b s).ratings.find? (matchPred (identOfSub s)) =
        some { e with rating := s.rating } := by
  have hr : (rateBookUpdate b s).ratings =
      updateFirst (matchPred (identOfSub s)) (fun e => { e with rating := s.rating })
        b.ratings := by
    simp [rateBookUpdate, applyRatings, hmatch]
  have hmap : (rateBookUpdate b s).ratings.map entryId = b.ratings.map entryId := by
    rw [hr]
    exact map_updateFirst _ _ entryId (fun e _ => entryId_set_rating e s.rating) _
  refine ⟨?_, ?_, hmap, ?_⟩
  · rw [hr]
    exact length_updateFirst _ _ _
  · have hnum : (rateBookUpdate b s).numberOfRatings =
        distinctRaters (rateBookUpdate b s).ratings := by
      simp [rateBookUpdate]
    rw [hnum, distinctRaters_congr hmap, ← hcons]
  · obtain ⟨e, he1, he2⟩ := find?_updateFirst (matchPred (identOfSub s))
      (fun e => { e with rating := s.rating })
      (fun e _ => by rw [matchPred_set_rating]; assumption) b.ratings hmatch
    exact ⟨e, he1, by rw [hr]; exact he2⟩

/-- Witness for C2: user 1 already rated the book 5; rating again with 3
keeps one entry, keeps `numberOfRatings` at 1, and the entry now holds 3. -/
theorem rateBook_second_rating_in_place_witness :
    (rateBookUpdate ⟨"t", "a", [], "s", 7, true, "", "", 5, 1, 0, [⟨some 1, none, 5⟩]⟩
        ⟨some 1, "9.9.9.9", 3⟩).ratings.length =
      ([⟨some 1, none, 5⟩] : List RatingEntry).length ∧
    (rateBookUpdate ⟨"t", "a", [], "s", 7, true, "", "", 5, 1, 0, [⟨some 1, none, 5⟩]⟩
        ⟨some 1, "9.9.9.9", 3⟩).numberOfRatings = 1 ∧
    (rateBookUpdate ⟨"t", "a", [], "s", 7, true, "", "", 5, 1, 0, [⟨some 1, none, 5⟩]⟩
        ⟨some 1, "9.9.9.9", 3⟩).ratings.map entryId =
      ([⟨some 1, none, 5⟩] : List RatingEntry).map entryId ∧
    ∃ e, ([⟨some 1, none, 5⟩] : List RatingEntry).find?
          (matchPred (identOfSub ⟨some 1, "9.9.9.9", 3⟩)) = some e ∧
      (rateBookUpdate ⟨"t", "a", [], "s", 7, true, "", "", 5, 1, 0, [⟨some 1, none, 5⟩]⟩
          ⟨some 1, "9.9.9.9", 3⟩).ratings.find?
          (matchPred (identOfSub ⟨some 1, "9.9.9.9", 3⟩)) =
        some { e with rating := 3 } :=
  rateBook_second_rating_in_place
    ⟨"t", "a", [], "s", 7, true, "", "", 5, 1, 0, [⟨some 1, none, 5⟩]⟩
    ⟨some 1, "9.9.9.9", 3⟩ (by decide) (by decide)

/-- When no entry matches the submission's identity, the rating operation
appends a fresh entry. -/
lemma applyRatings_of_no_match (rs : List RatingEntry) (s : Submission)
    (h : rs.any (matchPred (identOfSub s)) = false) :
    applyRatings rs s = rs ++ [newEntryOf s] := by
  simp [applyRatings, h]

/-- Folding submissions with pairwise-distinct identities over a ratings
array none of them matches appends one fresh entry per submission. -/
lemma foldl_applyRatings_of_nodup :
    ∀ (subs : List Submission) (rs : List RatingEntry),
      (∀ s ∈ subs, ∀ e ∈ rs, matchPred (identOfSub s) e = false) →
      (subs.map identOfSub).Nodup →
      subs.foldl applyRatings rs = rs ++ subs.map newEntryOf := by
  intro subs
  induction subs with
  | nil =>
    intro rs _ _
    simp
  | cons s rest ih =>
    intro rs hnm hnd
    simp only [List.map_cons, List.nodup_cons] at hnd
    have hany : rs.any (matchPred (identOfSub s)) = false := by
      rw [List.any_eq_false]
      intro e he
      simp [hnm s (by simp) e he]
    rw [List.foldl_cons, applyRatings_of_no_match rs s hany,
      ih (rs ++ [newEntryOf s]) ?_ hnd.2]
    · simp
    · intro s2 hs2 e he
      rcases List.mem_append.mp he with he1 | he2
      · exact hnm s2 (List.mem_cons_of_mem _ hs2) e he1
      · have heq : e = newEntryOf s := by simpa using he2
        subst heq
        by_contra hc
        rw [Bool.not_eq_false] at hc
        have hid : identOfSub s2 = identOfSub s := (matchPred_newEntryOf _ _).mp hc
        have hm : identOfSub s2 ∈ rest.map identOfSub := List.mem_map_of_mem _ hs2
        rw [hid] at hm
        exact hnd.1 hm

/-- When the book is present and every submitted value is in range, the
controller fold acts on the stored book exactly as the aggregation fold. -/
lemma processRatings_store (bookId : Nat) :
    ∀ (subs : List Submission) (store : Store) (b : Book),
      store bookId = some b →
      (∀ s ∈ subs, 1 ≤ s.rating ∧ s.rating ≤ 5) →
      processRatings store bookId subs bookId = some (subs.foldl rateBookUpdate b) := by
  intro subs
  induction subs with
  | nil =>
    intro store b hb _
    simpa [processRatings] using hb
  | cons s rest ih =>
    intro store b hb hr
    have hs := hr s (by simp)
    have hvalid : ¬(s.rating < 1 ∨ s.rating > 5) := by
      push_neg
      exact hs
    have hstep : (rateBook store bookId s).2 =
        fun i => if i = bookId then some (rateBookUpdate b s) else store i := by
      simp [rateBook, hvalid, hb]
    show (List.foldl (fun st s2 => (rateBook st bookId s2).2)
        ((rateBook store bookId s).2) rest) bookId = _
    rw [hstep, List.foldl_cons]
    exact ih _ (rateBookUpdate b s) (by simp)
      (fun s2 h2 => hr s2 (List.mem_cons_of_mem _ h2))

/-- The ratings array of the folded book is the fold of the array updates. -/
lemma ratings_foldl_rateBookUpdate (subs : List Submission) (b : Book) :
    (subs.foldl rateBookUpdate b).ratings = subs.foldl applyRatings b.ratings := by
  induction subs generalizing b with
  | nil => rfl
  | cons s rest ih =>
    simp only [List.foldl_cons]
    rw [ih]
    rfl

/-- After at least one submission, the aggregate fields hold exactly the
recomputation from the final ratings array. -/
lemma foldl_rateBookUpdate_last (subs : List Submission) (b : Book) (h : subs ≠ []) :
    (subs.foldl rateBookUpdate b).numberOfRatings =
      distinctRaters (subs.foldl rateBookUpdate b).ratings ∧
    (subs.foldl rateBookUpdate b).averageRating =
      ((subs.foldl rateBookUpdate b).ratings.map RatingEntry.rating).sum /
        (((subs.foldl rateBookUpdate b).ratings.length : ℚ)) := by
  rcases List.eq_nil_or_concat subs with hnil | ⟨l2, a, hconcat⟩
  · exact absurd hnil h
  · subst hconcat
    rw [List.concat_eq_append, List.foldl_concat]
    constructor <;> simp [rateBookUpdate]

/-- C1: starting from a book with no ratings, processing N in-range
submissions from N pairwise-distinct identities through the controller
leaves the stored book with `numberOfRatings` equal to N and `averageRating`
equal to the arithmetic mean of the N submitted values. -/
theorem rateBook_distinct_identities_counts (store : Store) (bookId : Nat) (b0 : Book)
    (subs : List Submission)
    (hb : store bookId = some b0) (hrat0 : b0.ratings = [])
    (hnum0 : b0.numberOfRatings = 0) (havg0 : b0.averageRating = 0)
    (hrange : ∀ s ∈ subs, 1 ≤ s.rating ∧ s.rating ≤ 5)
    (hdist : (subs.map identOfSub).Nodup) :
    ∃ bN, processRatings store bookId subs bookId = some bN ∧
      bN.numberOfRatings = subs.length ∧
      bN.averageRating = (subs.map Submission.rating).sum / ((subs.length : ℚ)) := by
  rcases subs with _ | ⟨s, rest⟩
  · refine ⟨b0, ?_, ?_, ?_⟩
    · simpa [processRatings] using hb
    · simpa using hnum0
    · rw [havg0]
      simp
  · have hne : (s :: rest : List Submission) ≠ [] := by simp
    have hmain := processRatings_store bookId (s :: rest) store b0 hb hrange
    obtain ⟨hn, ha⟩ := foldl_rateBookUpdate_last (s :: rest) b0 hne
    have hratings : ((s :: rest).foldl rateBookUpdate b0).ratings =
        (s :: rest).map newEntryOf := by
      rw [ratings_foldl_rateBookUpdate, hrat0,
        foldl_applyRatings_of_nodup (s :: rest) [] (by intro s2 _ e he; simp at he) hdist]
      simp
    refine ⟨(s :: rest).foldl rateBookUpdate b0, hmain, ?_, ?_⟩
    · rw [hn, hratings]
      unfold distinctRaters
      rw [List.filterMap_map,
        show entryId ∘ newEntryOf = some ∘ identOfSub from funext entryId_newEntryOf,
        List.filterMap_eq_map, List.dedup_eq_self.mpr hdist, List.length_map]
    · rw [ha, hratings, List.map_map,
        show RatingEntry.rating ∘ newEntryOf = Submission.rating from funext rating_newEntryOf,
        List.length_map]

/-- Witness for C1: two submissions, one by user 1 rating 5 and one by a
guest at IP 9.9.9.9 rating 3, leave the fresh book with 2 ratings and the
mean of the two values. -/
theorem rateBook_distinct_identities_counts_witness :
    ∃ bN, processRatings
        (fun i => if i = 0 then some ⟨"t", "a", [], "s", 7, true, "", "", 0, 0, 0, []⟩ else none)
        0 [⟨some 1, "8.8.8.8", 5⟩, ⟨none, "9.9.9.9", 3⟩] 0 = some bN ∧
      bN.numberOfRatings = ([⟨some 1, "8.8.8.8", 5⟩, ⟨none, "9.9.9.9", 3⟩] :
        List Submission).length ∧
      bN.averageRating = (([⟨some 1, "8.8.8.8", 5⟩, ⟨none, "9.9.9.9", 3⟩] :
          List Submission).map Submission.rating).sum /
        ((([⟨some 1, "8.8.8.8", 5⟩, ⟨none, "9.9.9.9", 3⟩] : List Submission).length : ℚ)) :=
  rateBook_distinct_identities_counts
    (fun i => if i = 0 then some ⟨"t", "a", [], "s", 7, true, "", "", 0, 0, 0, []⟩ else none)
    0 ⟨"t", "a", [], "s", 7, true, "", "", 0, 0, 0, []⟩
    [⟨some 1, "8.8.8.8", 5⟩, ⟨none, "9.9.9.9", 3⟩] rfl rfl rfl rfl
    (by decide) (by decide)

/-- Well-formedness of a ratings array: every entry records an identity and
the recorded identities are pairwise distinct. -/
def InvRatings (rs : List RatingEntry) : Prop :=
  (rs.map entryId).Nodup ∧ ∀ o ∈ rs.map entryId, o.isSome

/-- An entry also matches the identity it records under the later revision's
stricter duplicate test. -/
lemma matchPredS_of_entryId (e : RatingEntry) (i : Ident) (h : entryId e = some i) :
    matchPredS i e = true := by
  cases hu : e.user with
  | some u =>
    simp only [entryId, hu] at h
    injection h with h
    simp [matchPredS, ← h, hu]
  | none =>
    cases hip : e.ratedByIp with
    | some ip =>
      simp only [entryId, hu, hip] at h
      injection h with h
      simp [matchPredS, ← h, hu, hip]
    | none => simp [entryId, hu, hip] at h

/-- The later revision's overwrite step preserves the recorded identity of a
matched entry. -/
lemma entryId_serviceOverwrite (s : Submission) (e : RatingEntry)
    (hp : matchPredS (identOfSub s) e = true) :
    entryId (serviceOverwrite s e) = entryId e := by
  cases hu : s.user? with
  | some u => simp [serviceOverwrite, hu, entryId]
  | none =>
    simp only [identOfSub, hu, matchPredS, Bool.and_eq_true, beq_iff_eq] at hp
    obtain ⟨hpu, hpip⟩ := hp
    simp [serviceOverwrite, hu, entryId, hpu, hpip]

/-- Appending a fresh entry for an identity not yet recorded keeps the array
well formed. -/
lemma inv_append_newEntry (rs : List RatingEntry) (s : Submission)
    (h : InvRatings rs) (hnotin : some (identOfSub s) ∉ rs.map entryId) :
    InvRatings (rs ++ [newEntryOf s]) := by
  constructor
  · rw [List.map_append]
    rw [List.nodup_append]
    refine ⟨h.1, by simp, ?_⟩
    intro o ho
    simp only [List.map_cons, List.map_nil, List.mem_cons, List.not_mem_nil, or_false,
      entryId_newEntryOf]
    intro heq
    rw [heq] at ho
    exact hnotin ho
  · intro o ho
    rw [List.map_append] at ho
    rcases List.mem_append.mp ho with h1 | h2
    · exact h.2 o h1
    · simp only [List.map_cons, List.map_nil, List.mem_singleton,
        entryId_newEntryOf] at h2
      rw [h2]
      rfl

/-- The controller's rating operation preserves well-formedness. -/
lemma inv_applyRatings (rs : List RatingEntry) (s : Submission) (h : InvRatings rs) :
    InvRatings (applyRatings rs s) := by
  by_cases hany : rs.any (matchPred (identOfSub s)) = true
  · have hmap : (updateFirst (matchPred (identOfSub s))
        (fun e => { e with rating := s.rating }) rs).map entryId = rs.map entryId :=
      map_updateFirst _ _ entryId (fun e _ => entryId_set_rating e s.rating) rs
    simp only [applyRatings, if_pos hany]
    exact ⟨hmap ▸ h.1, hmap ▸ h.2⟩
  · have hnotin : some (identOfSub s) ∉ rs.map entryId := by
      intro hin
      obtain ⟨e, he, heq⟩ := List.mem_map.mp hin
      exact hany (List.any_eq_true.mpr ⟨e, he, matchPred_of_entryId e _ heq⟩)
    simp only [applyRatings, if_neg hany]
    exact inv_append_newEntry rs s h hnotin

/-- The later revision's rating operation preserves well-formedness. -/
lemma inv_applyRatingsS (rs : List RatingEntry) (s : Submission) (h : InvRatings rs) :
    InvRatings (applyRatingsS rs s) := by
  by_cases hany : rs.any (matchPredS (identOfSub s)) = true
  · have hmap : (updateFirst (matchPredS (identOfSub s)) (serviceOverwrite s) rs).map entryId =
        rs.map entryId :=
      map_updateFirst _ _ entryId (fun e hp => entryId_serviceOverwrite s e hp) rs
    simp only [applyRatingsS, if_pos hany]
    exact ⟨hmap ▸ h.1, hmap ▸ h.2⟩
  · have hnotin : some (identOfSub s) ∉ rs.map entryId := by
      intro hin
      obtain ⟨e, he, heq⟩ := List.mem_map.mp hin
      exact hany (List.any_eq_true.mpr ⟨e, he, matchPredS_of_entryId e _ heq⟩)
    simp only [applyRatingsS, if_neg hany]
    exact inv_append_newEntry rs s h hnotin

/-- Every array reachable by the rating operation is well formed. -/
lemma reachable_inv {rs : List RatingEntry} (h : ReachableRatings rs) : InvRatings rs := by
  induction h with
  | nil => exact ⟨List.nodup_nil, by simp⟩
  | stepController _ s ih => exact inv_applyRatings _ s ih
  | stepService _ s ih => exact inv_applyRatingsS _ s ih

/-- A list of options that are all `some` is the image of its contents. -/
lemma exists_ids_of_all_isSome {α : Type} :
    ∀ l : List (Option α), (∀ o ∈ l, o.isSome) → ∃ ids : List α, l = ids.map some := by
  intro l
  induction l with
  | nil => exact fun _ => ⟨[], rfl⟩
  | cons o rest ih =>
    intro h
    obtain ⟨ids, hids⟩ := ih fun o2 h2 => h o2 (List.mem_cons_of_mem _ h2)
    obtain ⟨a, ha⟩ := Option.isSome_iff_exists.mp (h o (by simp))
    exact ⟨a :: ids, by rw [ha, List.map_cons, hids]⟩

/-- On a well-formed array, the distinct-identity count equals the raw entry
count. -/
lemma distinctRaters_eq_length_of_inv (rs : List RatingEntry) (h : InvRatings rs) :
    distinctRaters rs = rs.length := by
  obtain ⟨ids, hids⟩ := exists_ids_of_all_isSome (rs.map entryId) h.2
  have hfm : rs.filterMap entryId = ids := by
    have h1 : rs.filterMap entryId = (rs.map entryId).filterMap id := by
      rw [List.filterMap_map]
      rfl
    rw [h1, hids, List.filterMap_map]
    simp
  have hnodup : ids.Nodup := List.Nodup.of_map some (hids ▸ h.1)
  have hlen : rs.length = ids.length := by
    have := congrArg List.length hids
    simpa using this
  rw [distinctRaters, hfm, List.dedup_eq_self.mpr hnodup, hlen]

/-- C7: on every ratings array produced solely by repeated applications of
the rating operation (either revision, any identities and values), the
number of distinct identities among the entries equals the entry
collection's length, so the earlier revision's `numberOfRatings`
(distinct-identity count) and the later revision's (raw entry count) agree. -/
theorem numberOfRatings_revisions_agree (rs : List RatingEntry)
    (h : ReachableRatings rs) : distinctRaters rs = rs.length :=
  distinctRaters_eq_length_of_inv rs (reachable_inv h)

/-- Witness for C7: the array built from a user-1 rating through the
controller revision followed by a guest rating through the service revision
has as many distinct identities as entries. -/
theorem numberOfRatings_revisions_agree_witness :
    distinctRaters
        (applyRatingsS (applyRatings [] ⟨some 1, "8.8.8.8", 5⟩) ⟨none, "9.9.9.9", 4⟩) =
      (applyRatingsS (applyRatings [] ⟨some 1, "8.8.8.8", 5⟩) ⟨none, "9.9.9.9", 4⟩).length :=
  numberOfRatings_revisions_agree _
    (ReachableRatings.stepService
      (ReachableRatings.stepController ReachableRatings.nil ⟨some 1, "8.8.8.8", 5⟩)
      ⟨none, "9.9.9.9", 4⟩)

/-- Refreshing the timestamp of the unique matching row leaves exactly the
row (user, book, now) as the matching rows. -/
lemma filter_updateFirst_histMatch (u b now : Nat) :
    ∀ rows : List HistoryRow, rows.any (histMatch u b) = true →
      (rows.filter (histMatch u b)).length ≤ 1 →
      (updateFirst (histMatch u b) (fun r => { r with lastReadAt := now }) rows).filter
        (histMatch u b) = [⟨u, b, now⟩] := by
  intro rows
  induction rows with
  | nil =>
    intro h
    simp at h
  | cons r rest ih =>
    intro hany hone
    by_cases hr : histMatch u b r = true
    · have hru : r.user = u ∧ r.book = b := by
        simpa [histMatch, Bool.and_eq_true, beq_iff_eq] using hr
      have hfr : histMatch u b { r with lastReadAt := now } = true := hr
      simp only [updateFirst, if_pos hr]
      rw [List.filter_cons_of_pos hfr]
      have hrest : rest.filter (histMatch u b) = [] := by
        rw [List.filter_cons_of_pos hr] at hone
        simp only [List.length_cons] at hone
        exact List.length_eq_zero.mp (by omega)
      rw [hrest]
      have hrow : ({ r with lastReadAt := now } : HistoryRow) = ⟨u, b, now⟩ := by
        cases r
        simp only at hru
        rw [hru.1, hru.2]
      rw [hrow]
    · simp only [updateFirst, if_neg hr]
      rw [List.filter_cons_of_neg hr]
      have hany2 : rest.any (histMatch u b) = true := by
        rcases List.any_eq_true.mp hany with ⟨x, hx, hpx⟩
        rcases List.mem_cons.mp hx with rfl | hx2
        · exact absurd hpx hr
        · exact List.any_eq_true.mpr ⟨x, hx2, hpx⟩
      have hone2 : (rest.filter (histMatch u b)).length ≤ 1 := by
        rw [List.filter_cons_of_neg hr] at hone
        exact hone
      exact ih hany2 hone2

/-- After find-or-create, the rows matching (user, book) are exactly one row
stamped now. -/
lemma filter_addToHistoryRows (u b now : Nat) (rows : List HistoryRow)
    (hone : (rows.filter (histMatch u b)).length ≤ 1) :
    (addToHistoryRows rows u b now).filter (histMatch u b) = [⟨u, b, now⟩] := by
  cases hany : rows.any (histMatch u b) with
  | true =>
    rw [addToHistoryRows, if_pos hany]
    exact filter_updateFirst_histMatch u b now rows hany hone
  | false =>
    rw [addToHistoryRows, if_neg (by simp [hany]), List.filter_append]
    have h1 : rows.filter (histMatch u b) = [] :=
      List.filter_eq_nil_iff.mpr (by
        intro a ha
        simp [List.any_eq_false.mp hany a ha])
    rw [h1]
    simp [histMatch]

/-- C4: recording a read for a (user, book) pair that has at most one history
row leaves exactly one row for that pair, stamped with the later timestamp,
and the stored book's `uniqueReadersCount` equals the number of distinct
user identifiers across all history rows referencing the book. -/
theorem addToHistory_unique_row_and_readers (rows : List HistoryRow) (store : Store)
    (u bookId now : Nat) (book : Book)
    (hb : store bookId = some book)
    (hone : (rows.filter (histMatch u bookId)).length ≤ 1) :
    ∃ rows2 store2 book2,
      addToHistory rows store u bookId now = (200, rows2, store2) ∧
      rows2 = addToHistoryRows rows u bookId now ∧
      rows2.filter (histMatch u bookId) = [⟨u, bookId, now⟩] ∧
      store2 bookId = some book2 ∧
      book2.uniqueReadersCount =
        ((rows2.filter (fun r => r.book == bookId)).map HistoryRow.user).toFinset.card := by
  refine ⟨addToHistoryRows rows u bookId now,
    fun i => if i = bookId then
      some { book with
        uniqueReadersCount := distinctReaders (addToHistoryRows rows u bookId now) bookId }
    else store i,
    { book with
      uniqueReadersCount := distinctReaders (addToHistoryRows rows u bookId now) bookId },
    ?_, rfl, ?_, ?_, ?_⟩
  · simp [addToHistory, hb]
  · exact filter_addToHistoryRows u bookId now rows hone
  · simp
  · exact (List.card_toFinset _).symm

/-- Witness for C4: user 1 re-reads book 2 at time 20 after a first read at
time 10; one row remains, stamped 20, and the reader count is the distinct
user count. -/
theorem addToHistory_unique_row_and_readers_witness :
    ∃ rows2 store2 book2,
      addToHistory [⟨1, 2, 10⟩]
          (fun i => if i = 2 then some ⟨"t", "a", [], "s", 7, true, "", "", 0, 0, 1, []⟩
           else none) 1 2 20 = (200, rows2, store2) ∧
      rows2 = addToHistoryRows [⟨1, 2, 10⟩] 1 2 20 ∧
      rows2.filter (histMatch 1 2) = [⟨1, 2, 20⟩] ∧
      store2 2 = some book2 ∧
      book2.uniqueReadersCount =
        ((rows2.filter (fun r => r.book == 2)).map HistoryRow.user).toFinset.card :=
  addToHistory_unique_row_and_readers [⟨1, 2, 10⟩]
    (fun i => if i = 2 then some ⟨"t", "a", [], "s", 7, true, "", "", 0, 0, 1, []⟩ else none)
    1 2 20 ⟨"t", "a", [], "s", 7, true, "", "", 0, 0, 1, []⟩ rfl (by decide)

/-- For a positive page size, the code's `(t + s - 1) / s` is the ceiling of
the rational quotient `t / s`, matching `Math.ceil(total/limit)`. -/
lemma ceil_div_nat (t s : Nat) (hs : 1 ≤ s) :
    ((t + s - 1) / s : Nat) = ⌈(t : ℚ) / (s : ℚ)⌉₊ := by
  have hs0 : 0 < s := hs
  have hsQ : (0 : ℚ) < (s : ℚ) := by exact_mod_cast hs0
  rcases Nat.eq_zero_or_pos t with ht | ht
  · subst ht
    have h1 : (0 + s - 1) / s = 0 := Nat.div_eq_of_lt (by omega)
    rw [h1]
    simp
  · set P := (t + s - 1) / s with hP
    set q := P * s with hq
    have hP1 : 1 ≤ P := by
      rw [hP, Nat.one_le_div_iff hs0]
      omega
    have hub : q ≤ t + s - 1 := by
      rw [hq, hP]
      exact Nat.div_mul_le_self _ _
    have hlb : t + s - 1 < q + s := by
      have h2 : (t + s - 1) / s < P + 1 := by omega
      have h3 := (Nat.div_lt_iff_lt_mul hs0).mp h2
      rw [Nat.add_mul, Nat.one_mul] at h3
      exact h3
    have hA : (P - 1) * s < t := by
      calc (P - 1) * s = q - s := by rw [hq, Nat.sub_one_mul]
        _ ≤ t + s - 1 - s := Nat.sub_le_sub_right hub s
        _ = t - 1 := by omega
        _ < t := by omega
    have hB : t ≤ q := by omega
    symm
    rw [Nat.ceil_eq_iff (by omega)]
    constructor
    · rw [lt_div_iff₀ hsQ]
      exact_mod_cast hA
    · rw [div_le_iff₀ hsQ]
      exact_mod_cast hB

/-- C5: for page `p ≥ 1` and page size `s ≥ 1`, the listing returns the slice
starting at position `(p-1)*s` of length at most `s` (exactly
`min s (total - (p-1)*s)` truncated at zero), reports the total item count,
reports the page count as the ceiling of `total/s`, and answers an
out-of-range page with an empty slice rather than an error. -/
theorem getPublicBooks_pagination {α : Type} (books : List α) (page limit : Nat)
    (_hp : 1 ≤ page) (hs : 1 ≤ limit) :
    (∀ i : Nat, (getPublicBooks books page limit).books[i]? =
      if i < limit then books[(page - 1) * limit + i]? else none) ∧
    (getPublicBooks books page limit).books.length ≤ limit ∧
    (getPublicBooks books page limit).books.length =
      min limit (books.length - (page - 1) * limit) ∧
    (getPublicBooks books page limit).totalBooks = books.length ∧
    (getPublicBooks books page limit).pages = ⌈(books.length : ℚ) / (limit : ℚ)⌉₊ ∧
    (books.length ≤ (page - 1) * limit → (getPublicBooks books page limit).books = []) := by
  refine ⟨?_, ?_, ?_, rfl, ?_, ?_⟩
  · intro i
    show ((books.drop ((page - 1) * limit)).take limit)[i]? = _
    rw [List.getElem?_take]
    by_cases h : i < limit
    · rw [if_pos h, if_pos h, List.getElem?_drop]
    · rw [if_neg h, if_neg h]
  · show ((books.drop ((page - 1) * limit)).take limit).length ≤ limit
    rw [List.length_take]
    exact min_le_left _ _
  · show ((books.drop ((page - 1) * limit)).take limit).length = _
    rw [List.length_take, List.length_drop]
  · show (books.length + limit - 1) / limit = _
    exact ceil_div_nat books.length limit hs
  · intro hout
    show (books.drop ((page - 1) * limit)).take limit = []
    rw [List.drop_eq_nil_of_le hout, List.take_nil]

/-- Witness for C5: page 2 with page size 10 over 15 items returns 5 items
and reports 2 total pages. -/
theorem getPublicBooks_pagination_witness :
    (getPublicBooks (List.range 15) 2 10).books.length =
      min 10 ((List.range 15).length - (2 - 1) * 10) ∧
    (getPublicBooks (List.range 15) 2 10).books.length = 5 ∧
    (getPublicBooks (List.range 15) 2 10).pages = 2 ∧
    (getPublicBooks (List.range 15) 2 10).totalBooks = 15 :=
  ⟨(getPublicBooks_pagination (List.range 15) 2 10 (by decide) (by decide)).2.2.1,
   by decide, by decide, by decide⟩

/-- C3: a rating outside [1,5] is rejected with 400 before the aggregator
runs and the store is unchanged; a request with an in-range rating naming an
unknown book id answers 404 and modifies no book. -/
theorem rateBook_rejects_invalid_and_unknown (store : Store) (bookId : Nat) (s : Submission) :
    (s.rating < 1 ∨ s.rating > 5 → rateBook store bookId s = (400, store)) ∧
    (1 ≤ s.rating → s.rating ≤ 5 → store bookId = none →
      rateBook store bookId s = (404, store)) := by
  constructor
  · intro h
    simp only [rateBook, if_pos h]
  · intro h1 h5 hnone
    have hvalid : ¬(s.rating < 1 ∨ s.rating > 5) := by
      push_neg
      exact ⟨h1, h5⟩
    simp only [rateBook, if_neg hvalid, hnone]

/-- Witness for C3: a rating of 7 is rejected with 400 on an empty store, and
an in-range rating against an unknown id answers 404. -/
theorem rateBook_rejects_invalid_and_unknown_witness :
    rateBook (fun _ => none) 0 ⟨none, "9.9.9.9", 7⟩ = (400, fun _ => none) ∧
    rateBook (fun _ => none) 0 ⟨none, "9.9.9.9", 3⟩ = (404, fun _ => none) :=
  ⟨(rateBook_rejects_invalid_and_unknown (fun _ => none) 0 ⟨none, "9.9.9.9", 7⟩).1
      (by norm_num),
   (rateBook_rejects_invalid_and_unknown (fun _ => none) 0 ⟨none, "9.9.9.9", 3⟩).2
      (by norm_num) (by norm_num) rfl⟩

/-- C8: an owner's request to add a book already present in one of their
collections is rejected with 400 and the collection's book list is unchanged. -/
theorem addBookToCollection_rejects_duplicate (coll : Collection) (book : Book)
    (uid bookId : Nat) (hcoll : coll.owner = uid) (hbook : book.owner = uid)
    (hmem : bookId ∈ coll.books) :
    addBookToCollection (some coll) (some book) uid bookId = (400, some coll) := by
  simp [addBookToCollection, hcoll, hbook, hmem]

/-- Witness for C8: collection owned by user 7 already holding book 3 rejects
a second add of book 3. -/
theorem addBookToCollection_rejects_duplicate_witness :
    addBookToCollection (some ⟨"c", 7, [3]⟩)
      (some ⟨"t", "a", [], "s", 7, false, "", "", 0, 0, 0, []⟩) 7 3 = (400, some ⟨"c", 7, [3]⟩) :=
  addBookToCollection_rejects_duplicate ⟨"c", 7, [3]⟩
    ⟨"t", "a", [], "s", 7, false, "", "", 0, 0, 0, []⟩ 7 3 rfl rfl (by decide)

/-- C9: a delete request from an authenticated user who is not the book's
owner answers 404 (not forbidden) and the book remains in storage unmodified. -/
theorem deletePersonalBook_nonowner_404 (store : Store) (bookId uid : Nat) (book : Book)
    (hb : store bookId = some book) (hown : book.owner ≠ uid) :
    deletePersonalBook store bookId uid = (404, store) ∧
    (deletePersonalBook store bookId uid).2 bookId = some book := by
  have h : deletePersonalBook store bookId uid = (404, store) := by
    simp [deletePersonalBook, hb, hown]
  exact ⟨h, by rw [h]; exact hb⟩

/-- Witness for C9: user 3 asking to delete book 1 owned by user 2 gets 404
and the book is still stored. -/
theorem deletePersonalBook_nonowner_404_witness :
    deletePersonalBook
        (fun i => if i = 1 then some ⟨"t", "a", [], "s", 2, false, "", "", 0, 0, 0, []⟩ else none)
        1 3 =
      (404, fun i => if i = 1 then some ⟨"t", "a", [], "s", 2, false, "", "", 0, 0, 0, []⟩ else none) ∧
    (deletePersonalBook
        (fun i => if i = 1 then some ⟨"t", "a", [], "s", 2, false, "", "", 0, 0, 0, []⟩ else none)
        1 3).2 1 = some ⟨"t", "a", [], "s", 2, false, "", "", 0, 0, 0, []⟩ :=
  deletePersonalBook_nonowner_404
    (fun i => if i = 1 then some ⟨"t", "a", [], "s", 2, false, "", "", 0, 0, 0, []⟩ else none)
    1 3 ⟨"t", "a", [], "s", 2, false, "", "", 0, 0, 0, []⟩ rfl (by decide)

/-- C10: copying a public book creates a new document owned by the requester,
private, with `uniqueReadersCount` reset to 0 and all listed fields copied,
leaving the source document unchanged; a missing or non-public target answers
404 and creates nothing. -/
theorem addBookFromPublic_copies (store : Store) (freshId bookId uid : Nat)
    (hfresh : store freshId = none) :
    (∀ pb, store bookId = some pb → pb.isPublic = true →
      ∃ nb, (addBookFromPublic store freshId bookId uid).1 = 201 ∧
        (addBookFromPublic store freshId bookId uid).2 freshId = some nb ∧
        nb.owner = uid ∧ nb.isPublic = false ∧ nb.uniqueReadersCount = 0 ∧
        nb.title = pb.title ∧ nb.author = pb.author ∧ nb.genre = pb.genre ∧
        nb.summary = pb.summary ∧ nb.coverImageURL = pb.coverImageURL ∧
        nb.filePath = pb.filePath ∧ nb.ratings = pb.ratings ∧
        nb.averageRating = pb.averageRating ∧ nb.numberOfRatings = pb.numberOfRatings ∧
        (addBookFromPublic store freshId bookId uid).2 bookId = some pb ∧
        (∀ i, i ≠ freshId → (addBookFromPublic store freshId bookId uid).2 i = store i)) ∧
    (store bookId = none → addBookFromPublic store freshId bookId uid = (404, store)) ∧
    (∀ pb, store bookId = some pb → pb.isPublic = false →
      addBookFromPublic store freshId bookId uid = (404, store)) := by
  refine ⟨?_, ?_, ?_⟩
  · intro pb hpb hpub
    have hne : bookId ≠ freshId := by
      intro h
      rw [h, hfresh] at hpb
      exact Option.noConfusion hpb
    refine ⟨copyPublicBook pb uid, ?_, ?_, rfl, rfl, rfl, rfl, rfl, rfl, rfl, rfl, rfl, rfl,
      rfl, rfl, ?_, ?_⟩
    · simp [addBookFromPublic, hpb, hpub]
    · simp [addBookFromPublic, hpb, hpub]
    · simp [addBookFromPublic, hpb, hpub, hne]
    · intro i hi
      simp [addBookFromPublic, hpb, hpub, hi]
  · intro hnone
    simp [addBookFromPublic, hnone]
  · intro pb hpb hpriv
    simp [addBookFromPublic, hpb, hpriv]

/-- Witness for C10: a store holding a public book at id 1 and a private book
at id 2; copying book 1 to fresh id 5 for user 9 succeeds with the expected
fields, while targeting the private book 2 or the empty slot 3 answers 404. -/
theorem addBookFromPublic_copies_witness :
    (∃ nb,
      (addBookFromPublic
          (fun i => if i = 1 then some ⟨"t", "a", ["g"], "s", 4, true, "c", "f", 5, 1, 6,
            [⟨some 4, none, 5⟩]⟩
           else if i = 2 then some ⟨"u", "b", [], "z", 4, false, "", "", 0, 0, 0, []⟩ else none)
          5 1 9).1 = 201 ∧
      (addBookFromPublic
          (fun i => if i = 1 then some ⟨"t", "a", ["g"], "s", 4, true, "c", "f", 5, 1, 6,
            [⟨some 4, none, 5⟩]⟩
           else if i = 2 then some ⟨"u", "b", [], "z", 4, false, "", "", 0, 0, 0, []⟩ else none)
          5 1 9).2 5 = some nb ∧
      nb.owner = 9 ∧ nb.isPublic = false ∧ nb.uniqueReadersCount = 0 ∧
      nb.title = "t" ∧ nb.author = "a" ∧ nb.genre = ["g"] ∧ nb.summary = "s" ∧
      nb.coverImageURL = "c" ∧ nb.filePath = "f" ∧ nb.ratings = [⟨some 4, none, 5⟩] ∧
      nb.averageRating = 5 ∧ nb.numberOfRatings = 1 ∧
      (addBookFromPublic
          (fun i => if i = 1 then some ⟨"t", "a", ["g"], "s", 4, true, "c", "f", 5, 1, 6,
            [⟨some 4, none, 5⟩]⟩
           else if i = 2 then some ⟨"u", "b", [], "z", 4, false, "", "", 0, 0, 0, []⟩ else none)
          5 1 9).2 1 = some ⟨"t", "a", ["g"], "s", 4, true, "c", "f", 5, 1, 6,
            [⟨some 4, none, 5⟩]⟩) ∧
    addBookFromPublic
        (fun i => if i = 1 then some ⟨"t", "a", ["g"], "s", 4, true, "c", "f", 5, 1, 6,
          [⟨some 4, none, 5⟩]⟩
         else if i = 2 then some ⟨"u", "b", [], "z", 4, false, "", "", 0, 0, 0, []⟩ else none)
        5 2 9 =
      (404, fun i => if i = 1 then some ⟨"t", "a", ["g"], "s", 4, true, "c", "f", 5, 1, 6,
          [⟨some 4, none, 5⟩]⟩
        else if i = 2 then some ⟨"u", "b", [], "z", 4, false, "", "", 0, 0, 0, []⟩ else none) := by
  obtain ⟨h1, h2, h3⟩ := addBookFromPublic_copies
    (fun i => if i = 1 then some ⟨"t", "a", ["g"], "s", 4, true, "c", "f", 5, 1, 6,
      [⟨some 4, none, 5⟩]⟩
     else if i = 2 then some ⟨"u", "b", [], "z", 4, false, "", "", 0, 0, 0, []⟩ else none)
    5 1 9 rfl
  obtain ⟨nb, hsucc⟩ := h1 _ rfl rfl
  refine ⟨⟨nb, hsucc.1, hsucc.2.1, hsucc.2.2.1, hsucc.2.2.2.1, hsucc.2.2.2.2.1,
    hsucc.2.2.2.2.2.1, hsucc.2.2.2.2.2.2.1, hsucc.2.2.2.2.2.2.2.1,
    hsucc.2.2.2.2.2.2.2.2.1, hsucc.2.2.2.2.2.2.2.2.2.1, hsucc.2.2.2.2.2.2.2.2.2.2.1,
    hsucc.2.2.2.2.2.2.2.2.2.2.2.1, hsucc.2.2.2.2.2.2.2.2.2.2.2.2.1,
    hsucc.2.2.2.2.2.2.2.2.2.2.2.2.2.1, hsucc.2.2.2.2.2.2.2.2.2.2.2.2.2.2.1⟩, ?_⟩
  exact (addBookFromPublic_copies
    (fun i => if i = 1 then some ⟨"t", "a", ["g"], "s", 4, true, "c", "f", 5, 1, 6,
      [⟨some 4, none, 5⟩]⟩
     else if i = 2 then some ⟨"u", "b", [], "z", 4, false, "", "", 0, 0, 0, []⟩ else none)
    5 2 9 rfl).2.2 _ rfl rfl

/-- The lexicographic comparison is transitive. -/
lemma lexLt_trans : ∀ a b c : Str, lexLt a b = true → lexLt b c = true → lexLt a c = true := by
  intro a
  induction a with
  | nil =>
    intro b c hab hbc
    cases b with
    | nil => simp [lexLt] at hab
    | cons y ys =>
      cases c with
      | nil => simp [lexLt] at hbc
      | cons z zs => simp [lexLt]
  | cons x xs ih =>
    intro b c hab hbc
    cases b with
    | nil => simp [lexLt] at hab
    | cons y ys =>
      cases c with
      | nil => simp [lexLt] at hbc
      | cons z zs =>
        simp only [lexLt] at hab hbc ⊢
        by_cases hxy : x < y
        · by_cases hyz : y < z
          · rw [if_pos (lt_trans hxy hyz)]
          · rw [if_neg hyz] at hbc
            by_cases hzy : z < y
            · rw [if_pos hzy] at hbc
              exact absurd hbc (by simp)
            · have hyz2 : y = z := le_antisymm (not_lt.mp hzy) (not_lt.mp hyz)
              subst hyz2
              rw [if_pos hxy]
        · rw [if_neg hxy] at hab
          by_cases hyx : y < x
          · rw [if_pos hyx] at hab
            exact absurd hab (by simp)
          · have hxy2 : x = y := le_antisymm (not_lt.mp hyx) (not_lt.mp hxy)
            subst hxy2
            rw [if_neg hyx] at hab
            by_cases hxz : x < z
            · rw [if_pos hxz]
            · by_cases hzx : z < x
              · rw [if_neg hxz, if_pos hzx] at hbc
                exact absurd hbc (by simp)
              · rw [if_neg hxz, if_neg hzx]
                rw [if_neg hxz, if_neg hzx] at hbc
                exact ih ys zs hab hbc

/-- Two distinct strings compare strictly in one direction or the other. -/
lemma lexLt_total : ∀ a b : Str, a ≠ b → lexLt a b = true ∨ lexLt b a = true := by
  intro a
  induction a with
  | nil =>
    intro b hne
    cases b with
    | nil => exact absurd rfl hne
    | cons y ys =>
      left
      simp [lexLt]
  | cons x xs ih =>
    intro b hne
    cases b with
    | nil =>
      right
      simp [lexLt]
    | cons y ys =>
      by_cases hxy : x < y
      · left
        simp [lexLt, hxy]
      · by_cases hyx : y < x
        · right
          simp [lexLt, hyx]
        · have hxy2 : x = y := le_antisymm (not_lt.mp hyx) (not_lt.mp hxy)
          subst hxy2
          have hne2 : xs ≠ ys := fun h => hne (by rw [h])
          rcases ih ys hne2 with h | h
          · left
            simp [lexLt, lt_irrefl, h]
          · right
            simp [lexLt, lt_irrefl, h]

/-- No string compares strictly below itself. -/
lemma lexLt_irrefl : ∀ a : Str, lexLt a a = false := by
  intro a
  induction a with
  | nil => rfl
  | cons x xs ih => simp [lexLt, lt_irrefl, ih]

/-- Membership after sorted-insert is membership before, plus the new string. -/
lemma mem_insertGenre (s a : Str) : ∀ l : List Str, a ∈ insertGenre s l ↔ a = s ∨ a ∈ l := by
  intro l
  induction l with
  | nil => simp [insertGenre]
  | cons t ts ih =>
    simp only [insertGenre]
    by_cases h1 : s = t
    · subst h1
      rw [if_pos rfl]
      simp only [List.mem_cons]
      tauto
    · rw [if_neg h1]
      by_cases h2 : lexLt s t = true
      · rw [if_pos h2]
        simp
      · rw [if_neg h2]
        simp only [List.mem_cons, ih]
        tauto

/-- Sorted-insert preserves strict ascending order. -/
lemma pairwise_insertGenre (s : Str) :
    ∀ l : List Str, l.Pairwise (fun a b => lexLt a b = true) →
      (insertGenre s l).Pairwise (fun a b => lexLt a b = true) := by
  intro l
  induction l with
  | nil =>
    intro _
    simp [insertGenre]
  | cons t ts ih =>
    intro hp
    rw [List.pairwise_cons] at hp
    obtain ⟨ht, hts⟩ := hp
    simp only [insertGenre]
    by_cases h1 : s = t
    · rw [if_pos h1]
      exact List.pairwise_cons.mpr ⟨ht, hts⟩
    · rw [if_neg h1]
      by_cases h2 : lexLt s t = true
      · rw [if_pos h2]
        refine List.pairwise_cons.mpr ⟨?_, List.pairwise_cons.mpr ⟨ht, hts⟩⟩
        intro b hb
        rcases List.mem_cons.mp hb with rfl | hb2
        · exact h2
        · exact lexLt_trans s t b h2 (ht b hb2)
      · rw [if_neg h2]
        refine List.pairwise_cons.mpr ⟨?_, ih hts⟩
        intro b hb
        rcases (mem_insertGenre s b ts).mp hb with hbs | hb2
        · rw [hbs]
          rcases lexLt_total s t h1 with h | h
          · exact absurd h h2
          · exact h
        · exact ht b hb2

/-- The sorted deduplication keeps exactly the strings of the input. -/
lemma mem_sortDedupGenres (l : List Str) (a : Str) : a ∈ sortDedupGenres l ↔ a ∈ l := by
  induction l with
  | nil => simp [sortDedupGenres]
  | cons t ts ih =>
    simp only [sortDedupGenres, List.foldr_cons]
    rw [mem_insertGenre, show List.foldr insertGenre [] ts = sortDedupGenres ts from rfl, ih,
      List.mem_cons]

/-- The sorted deduplication produces a strictly ascending list. -/
lemma pairwise_sortDedupGenres (l : List Str) :
    (sortDedupGenres l).Pairwise (fun a b => lexLt a b = true) := by
  induction l with
  | nil => simp [sortDedupGenres]
  | cons t ts ih => exact pairwise_insertGenre t _ ih

/-- A string survives the match-split-trim-filter stages exactly when it is a
trimmed non-empty token of the genre field of some public book. -/
lemma mem_rawGenres (docs : List GenreDoc) (t : Str) :
    t ∈ rawGenres docs ↔ ∃ d ∈ docs, d.isPublic = true ∧ ∃ g, d.genre = some g ∧
      ∃ raw ∈ genreTokens g, trimChars raw = t ∧ t ≠ [] := by
  unfold rawGenres
  rw [List.mem_flatMap]
  constructor
  · rintro ⟨d, hd, ht⟩
    rw [List.mem_filter] at hd
    obtain ⟨hdocs, hpub⟩ := hd
    cases hg : d.genre with
    | none =>
      rw [hg] at ht
      simp at ht
    | some g =>
      rw [hg] at ht
      rw [List.mem_filter] at ht
      obtain ⟨htm, hne⟩ := ht
      rw [List.mem_map] at htm
      obtain ⟨raw, hraw, htrim⟩ := htm
      exact ⟨d, hdocs, hpub, g, hg, raw, hraw, htrim, by simpa [List.isEmpty_iff] using hne⟩
  · rintro ⟨d, hd, hpub, g, hg, raw, hraw, htrim, hne⟩
    refine ⟨d, List.mem_filter.mpr ⟨hd, hpub⟩, ?_⟩
    rw [hg, List.mem_filter]
    exact ⟨List.mem_map.mpr ⟨raw, hraw, htrim⟩, by simp [List.isEmpty_iff, hne]⟩

/-- C6: the distinct-genre extraction returns a strictly ascending (hence
duplicate-free, alphabetically sorted) list containing exactly the trimmed
non-empty genre tokens of the public books, whether the genre field is a
comma-delimited string or a list; on the spec's example the result is
exactly Comedy, Drama, Sci-Fi. -/
theorem getUniqueGenres_normalizes (docs : List GenreDoc) :
    (getUniqueGenres docs).Pairwise (fun a b => lexLt a b = true) ∧
    (getUniqueGenres docs).Nodup ∧
    (∀ t, t ∈ getUniqueGenres docs ↔ ∃ d ∈ docs, d.isPublic = true ∧
      ∃ g, d.genre = some g ∧ ∃ raw ∈ genreTokens g, trimChars raw = t ∧ t ≠ []) ∧
    getUniqueGenres
        [⟨true, some (GenreField.str "Sci-Fi, Drama".data)⟩,
         ⟨true, some (GenreField.arr ["Sci-Fi".data, "Comedy".data])⟩] =
      ["Comedy".data, "Drama".data, "Sci-Fi".data] := by
  refine ⟨pairwise_sortDedupGenres _, ?_, ?_, by decide⟩
  · refine (pairwise_sortDedupGenres (rawGenres docs)).imp ?_
    intro a b h heq
    subst heq
    rw [lexLt_irrefl] at h
    exact Bool.noConfusion h
  · intro t
    rw [getUniqueGenres, mem_sortDedupGenres, mem_rawGenres]

end BookStore
